import Mathlib

/-!
# Verification of the construction-schedule optimizer

Shallow embedding of the genetic-algorithm construction-schedule optimizer
(`src/scheduler.py`) and of the deterministic resource optimizer
(`src/resource_optimizer.py`), together with proofs settling the frozen
claims about the natural-language specification.

Python floats are modelled as exact rationals (`ℚ`); `int(x)` on the
non-negative values arising here is modelled as the floor.  Randomness is
modelled by explicit choice data: every call to `random.randint` /
`random.random` in the source corresponds to an explicit draw threaded
through the embedded function, with `random.randint(a, b)` derandomized as
`a + u % (b - a + 1)` for an arbitrary natural draw `u`, which reaches
exactly the outcomes the source can produce.
-/

unseal Rat.mul Rat.add Rat.sub Rat.inv

namespace SchedOpt

/-- The three optimization modes (`mode` strings accepted by the source). -/
inductive Mode
  | eco
  | standard
  | performance
deriving DecidableEq, Repr

/-- `adjustment_factors[mode]["duration"]` (scheduler.py lines 33-37). -/
def durationFactor : Mode → ℚ
  | Mode.eco => 11/10
  | Mode.standard => 1
  | Mode.performance => 8/10

/-- `adjustment_factors[mode]["cost"]` (scheduler.py lines 33-37). -/
def costFactor : Mode → ℚ
  | Mode.eco => 9/10
  | Mode.standard => 1
  | Mode.performance => 12/10

/-- `adjustment_factors[mode]["carbon"]` (scheduler.py lines 33-37). -/
def carbonFactor : Mode → ℚ
  | Mode.eco => 7/10
  | Mode.standard => 1
  | Mode.performance => 15/10

/-- A task as consumed by `GeneticAlgorithmScheduler`: id, integer duration,
resource requirements (`resources` dict, modelled as an association list in
insertion order) and dependency ids. -/
structure Task where
  id : String
  duration : ℕ
  resources : List (String × ℕ)
  dependencies : List String
deriving DecidableEq, Repr

instance : Inhabited Task := ⟨⟨"", 0, [], []⟩⟩

/-- `max(1, int(int(task['duration']) * factor["duration"]))`
(scheduler.py lines 121 and 157, resource_optimizer.py line 204). -/
def adjDur (m : Mode) (d : ℕ) : ℕ :=
  max 1 (Int.toNat ⌊(d : ℚ) * durationFactor m⌋)

/-- `a` is an initial segment of `b` (character lists). -/
def listLeads : List Char → List Char → Bool
  | [], _ => true
  | _ :: _, [] => false
  | a :: as, b :: bs => a == b && listLeads as bs

/-- `pat` occurs as a contiguous substring of `s` (character lists). -/
def listOccurs (pat : List Char) : List Char → Bool
  | [] => listLeads pat []
  | c :: rest => listLeads pat (c :: rest) || listOccurs pat rest

/-- Case-insensitive substring test: `pat in s.lower()` for a lowercase
pattern `pat` (scheduler.py lines 185-188). -/
def lowerHas (s pat : String) : Bool :=
  listOccurs pat.toList (s.toList.map Char.toLower)

/-- Base daily cost per unit of a resource type, classified by
case-insensitive substring match (scheduler.py lines 185-193). -/
def baseCost (rt : String) : ℚ :=
  if lowerHas rt "crane" then 1000
  else if lowerHas rt "worker" || lowerHas rt "team" || lowerHas rt "labor" then 100
  else 200

/-- Base daily carbon per unit of a resource type (scheduler.py lines 185-193). -/
def baseCarbon (rt : String) : ℚ :=
  if lowerHas rt "crane" then 50
  else if lowerHas rt "worker" || lowerHas rt "team" || lowerHas rt "labor" then 5
  else 10

/-- `max(l)` for a list of integers, with `0` for the empty list, matching
`max(end_times) if end_times else 0` (scheduler.py lines 124 and 229). -/
def listMaxZ : List ℤ → ℤ
  | [] => 0
  | x :: xs => xs.foldl max x

/-- `max(l)` over naturals, `0` if empty (resource_optimizer.py line 186). -/
def listMaxNat : List ℕ → ℕ
  | [] => 0
  | x :: xs => xs.foldl max x

/-- Python `range(s, s + n)` over integers. -/
def intRange (s : ℤ) (n : ℕ) : List ℤ :=
  (List.range n).map (fun (k : ℕ) => s + (k : ℤ))

/-- Unique resource-type names across the task list
(`_extract_resource_types`, scheduler.py lines 42-48; order irrelevant,
membership matches the Python set). -/
def resourceTypes (tasks : List Task) : List String :=
  ((tasks.map (fun t => t.resources.map Prod.fst)).flatten).dedup

/-- An entry of the schedule dictionary produced by `_create_schedule_dict`
(scheduler.py lines 149-160); the dict is keyed by task id in task order,
modelled as a list in that order. -/
structure SchedEntry where
  id : String
  start : ℤ
  duration : ℕ
  resources : List (String × ℕ)
deriving DecidableEq, Repr

/-- `_create_schedule_dict(individual)` (scheduler.py lines 149-160):
start from the gene, duration adjusted by the mode factor, resources copied. -/
def createScheduleDict (tasks : List Task) (mode : Mode) (ind : List ℤ) : List SchedEntry :=
  tasks.enum.map (fun p =>
    { id := p.2.id, start := ind.getD p.1 0, duration := adjDur mode p.2.duration,
      resources := p.2.resources })

/-- Point update modelling `daily_usage[day][field][res_type] += v`. -/
def bumpF (f : ℤ → String → ℚ) (day : ℤ) (rt : String) (v : ℚ) : ℤ → String → ℚ :=
  fun d r => if d = day ∧ r = rt then f d r + v else f d r

/-- One numeric field of `_calculate_daily_resource_usage(schedule, factor)`
(scheduler.py lines 162-199): iterate over schedule entries, over the active
days `range(start, start + duration)`, over the entry's resources, and
accumulate `contrib res_type quantity` into the `(day, res_type)` cell when
the resource type is among the known ones.  Cells never written hold 0,
matching the dict reads with default 0 in the source. -/
def dailyLedger (resTypes : List String) (contrib : String → ℕ → ℚ)
    (sched : List SchedEntry) : ℤ → String → ℚ :=
  sched.foldl
    (fun acc e =>
      (intRange e.start e.duration).foldl
        (fun acc1 day =>
          e.resources.foldl
            (fun acc2 rq =>
              if rq.1 ∈ resTypes then bumpF acc2 day rq.1 (contrib rq.1 rq.2) else acc2)
            acc1)
        acc)
    (fun _ _ => 0)

/-- Per-day cost contribution of `quantity` units of `rt`:
`quantity_int * base_cost * factor["cost"]` (scheduler.py line 196). -/
def costContrib (m : Mode) (rt : String) (q : ℕ) : ℚ :=
  (q : ℚ) * baseCost rt * costFactor m

/-- Per-day carbon contribution: `quantity_int * base_carbon * factor["carbon"]`
(scheduler.py line 197). -/
def carbonContrib (m : Mode) (rt : String) (q : ℕ) : ℚ :=
  (q : ℚ) * baseCarbon rt * carbonFactor m

/-- Per-day raw quantity contribution (scheduler.py line 182). -/
def qtyContrib (_rt : String) (q : ℕ) : ℚ := (q : ℚ)

/-- The key set of the ledger dict: every day on which some task is active
(duplicates removed, as dict keys are unique). -/
def ledgerDays (sched : List SchedEntry) : List ℤ :=
  ((sched.map (fun e => intRange e.start e.duration)).flatten).dedup

/-- The task end times `start + duration` over schedule entries
(scheduler.py lines 120-123 and 225-228; entry durations are already
mode-adjusted). -/
def endTimes (sched : List SchedEntry) : List ℤ :=
  sched.map (fun e => e.start + (e.duration : ℤ))

/-- Sum of one ledger field over the given days and resource types, matching
`sum(day_cost for day in daily_resources.values() for day_cost in
day['cost'].values())` (scheduler.py lines 129-139 and 236-246). -/
def ledgerTotal (resTypes : List String) (L : ℤ → String → ℚ) (days : List ℤ) : ℚ :=
  (days.map (fun d => (resTypes.map (L d)).sum)).sum

/-- `_evaluate_schedule(individual)` (scheduler.py lines 112-147): makespan
from the adjusted end times, cost and carbon summed from the daily ledger,
then the soft budget penalty when a cost ceiling is set, the cost exceeds
it, and the mode is not performance. -/
def evaluateSchedule (tasks : List Task) (mode : Mode) (maxCost : Option ℚ)
    (ind : List ℤ) : ℚ × ℚ × ℚ :=
  let sched := createScheduleDict tasks mode ind
  let duration : ℚ := (listMaxZ (endTimes sched) : ℚ)
  let rts := resourceTypes tasks
  let days := ledgerDays sched
  let cost := ledgerTotal rts (dailyLedger rts (costContrib mode) sched) days
  let carbon := ledgerTotal rts (dailyLedger rts (carbonContrib mode) sched) days
  match maxCost with
  | none => (duration, cost, carbon)
  | some mc =>
      if mc < cost then
        if mode ≠ Mode.performance then (duration * (3/2), cost * (3/2), carbon)
        else (duration, cost, carbon)
      else (duration, cost, carbon)

-- Sanity checks on the basic definitions.
example : adjDur Mode.eco 10 = 11 := by decide
example : adjDur Mode.performance 5 = 4 := by decide
example : adjDur Mode.standard 2 = 2 := by decide
example : baseCost "Tower Crane" = 1000 := by decide
example : baseCost "workers" = 100 := by decide
example : baseCost "excavator" = 200 := by decide
example : baseCarbon "Labor Team" = 5 := by decide
example : listMaxZ [2, 3, 1] = 3 := by decide
example : intRange 2 3 = [2, 3, 4] := by decide

-- Two one-day tasks sharing a worker on day 0, standard mode:
-- cost 2 * 100, carbon 2 * 5, makespan 1.
example :
    evaluateSchedule
      [⟨"T1", 1, [("worker", 1)], []⟩, ⟨"T2", 1, [("worker", 1)], []⟩]
      Mode.standard none [0, 0] = (1, 200, 10) := by decide

-- The same schedule under a ceiling of 150: cost exceeds it, so makespan
-- and cost are scaled by 1.5 while carbon is unchanged.
example :
    evaluateSchedule
      [⟨"T1", 1, [("worker", 1)], []⟩, ⟨"T2", 1, [("worker", 1)], []⟩]
      Mode.standard (some 150) [0, 0] = (3/2, 300, 10) := by decide

section LedgerLemmas

lemma mem_intRange {s d : ℤ} {n : ℕ} : d ∈ intRange s n ↔ s ≤ d ∧ d < s + n := by
  simp only [intRange, List.mem_map, List.mem_range]
  constructor
  · rintro ⟨k, hk, hkd⟩
    omega
  · rintro ⟨h1, h2⟩
    refine ⟨(d - s).toNat, ?_, ?_⟩ <;> omega

lemma nodup_intRange (s : ℤ) (n : ℕ) : (intRange s n).Nodup := by
  unfold intRange
  refine List.Nodup.map ?_ (List.nodup_range n)
  intro a b hab
  have h : s + (a : ℤ) = s + (b : ℤ) := hab
  omega

/-- Sum over one entry's resources of its contribution to the `(·, r)` cell. -/
def resCellSum (rts : List String) (contrib : String → ℕ → ℚ) (r : String)
    (l : List (String × ℕ)) : ℚ :=
  (l.map (fun rq => if rq.1 = r ∧ rq.1 ∈ rts then contrib rq.1 rq.2 else 0)).sum

lemma resFold_eval (rts : List String) (contrib : String → ℕ → ℚ) (day : ℤ)
    (l : List (String × ℕ)) (acc : ℤ → String → ℚ) (d : ℤ) (r : String) :
    (l.foldl
      (fun a rq => if rq.1 ∈ rts then bumpF a day rq.1 (contrib rq.1 rq.2) else a)
      acc) d r
      = acc d r + (if d = day then resCellSum rts contrib r l else 0) := by
  induction l generalizing acc with
  | nil => simp [resCellSum]
  | cons hd tl ih =>
    simp only [List.foldl_cons, ih, resCellSum, List.map_cons, List.sum_cons]
    by_cases hmem : hd.1 ∈ rts
    · rw [if_pos hmem]
      simp only [bumpF]
      by_cases hday : d = day
      · by_cases hr : hd.1 = r
        · rw [if_pos ⟨hday, hr.symm⟩, if_pos hday, if_pos hday, if_pos ⟨hr, hmem⟩]
          ring
        · rw [if_neg (fun hc => hr hc.2.symm), if_pos hday, if_pos hday,
            if_neg (fun hc => hr hc.1)]
          ring
      · rw [if_neg (fun hc => hday hc.1), if_neg hday, if_neg hday]
    · rw [if_neg hmem]
      have hz : (if hd.1 = r ∧ hd.1 ∈ rts then contrib hd.1 hd.2 else 0) = 0 :=
        if_neg (fun hc => hmem hc.2)
      rw [hz]
      by_cases hday : d = day
      · rw [if_pos hday, if_pos hday]
        ring
      · rw [if_neg hday, if_neg hday]

lemma daysFold_eval (rts : List String) (contrib : String → ℕ → ℚ)
    (ds : List ℤ) (l : List (String × ℕ)) (acc : ℤ → String → ℚ) (d : ℤ) (r : String) :
    (ds.foldl
      (fun a1 day =>
        l.foldl
          (fun a rq => if rq.1 ∈ rts then bumpF a day rq.1 (contrib rq.1 rq.2) else a)
          a1)
      acc) d r
      = acc d r
        + (ds.map (fun day => if d = day then resCellSum rts contrib r l else 0)).sum := by
  induction ds generalizing acc with
  | nil => simp
  | cons hd tl ih =>
    simp only [List.foldl_cons, ih, List.map_cons, List.sum_cons, resFold_eval]
    ring

lemma sum_ite_eq_of_nodup (ds : List ℤ) (hnd : ds.Nodup) (d : ℤ) (S : ℚ) :
    (ds.map (fun day => if d = day then S else 0)).sum = if d ∈ ds then S else 0 := by
  induction ds with
  | nil => simp
  | cons hd tl ih =>
    simp only [List.nodup_cons] at hnd
    by_cases hd' : d = hd
    · subst hd'
      simp [hnd.1, ih hnd.2]
    · simp [hd', ih hnd.2]

/-- Cell value of the daily ledger: each entry active on day `d` contributes
the sum over its resource pairs with name `r` (and known type) of `contrib`. -/
lemma dailyLedger_eval (rts : List String) (contrib : String → ℕ → ℚ)
    (sched : List SchedEntry) (d : ℤ) (r : String) :
    dailyLedger rts contrib sched d r
      = (sched.map (fun e =>
          if e.start ≤ d ∧ d < e.start + (e.duration : ℤ) then
            resCellSum rts contrib r e.resources
          else 0)).sum := by
  have main :
      ∀ (sc : List SchedEntry) (acc : ℤ → String → ℚ),
        (sc.foldl
          (fun acc e =>
            (intRange e.start e.duration).foldl
              (fun acc1 day =>
                e.resources.foldl
                  (fun acc2 rq =>
                    if rq.1 ∈ rts then bumpF acc2 day rq.1 (contrib rq.1 rq.2) else acc2)
                  acc1)
              acc)
          acc) d r
          = acc d r + (sc.map (fun e =>
              if e.start ≤ d ∧ d < e.start + (e.duration : ℤ) then
                resCellSum rts contrib r e.resources
              else 0)).sum := by
    intro sc
    induction sc with
    | nil => simp
    | cons e tl ih =>
      intro acc
      simp only [List.foldl_cons, ih, List.map_cons, List.sum_cons, daysFold_eval]
      rw [sum_ite_eq_of_nodup _ (nodup_intRange _ _)]
      have : (d ∈ intRange e.start e.duration)
          = (e.start ≤ d ∧ d < e.start + (e.duration : ℤ)) := by
        simp [mem_intRange]
      simp only [this]
      ring
  simpa [dailyLedger] using main sched (fun _ _ => 0)

/-- Every resource-type name of a schedule entry built from the task list is
among the extracted resource types. -/
lemma mem_resourceTypes_of_entry {tasks : List Task} {mode : Mode} {ind : List ℤ}
    {e : SchedEntry} (he : e ∈ createScheduleDict tasks mode ind)
    {rq : String × ℕ} (hrq : rq ∈ e.resources) : rq.1 ∈ resourceTypes tasks := by
  simp only [createScheduleDict, List.mem_map] at he
  obtain ⟨p, hp, rfl⟩ := he
  simp only [resourceTypes, List.mem_dedup, List.mem_flatten, List.mem_map]
  refine ⟨p.2.resources.map Prod.fst, ⟨p.2, ?_, rfl⟩, List.mem_map_of_mem _ hrq⟩
  exact List.getElem?_mem (List.mem_enum_iff_getElem?.mp hp)

lemma resCellSum_of_keys (rts : List String) (contrib : String → ℕ → ℚ) (r : String)
    (l : List (String × ℕ)) (hkeys : ∀ rq ∈ l, rq.1 ∈ rts) :
    resCellSum rts contrib r l
      = (l.map (fun rq => if rq.1 = r then contrib rq.1 rq.2 else 0)).sum := by
  unfold resCellSum
  congr 1
  apply List.map_congr_left
  intro rq hrq
  by_cases hr : rq.1 = r
  · rw [if_pos ⟨hr, hkeys rq hrq⟩, if_pos hr]
  · rw [if_neg (fun hc => hr hc.1), if_neg hr]

end LedgerLemmas

/-- C1: with a cost ceiling `mc` set, the fitness evaluator returns the
unpenalized triple with makespan and cost multiplied by exactly 1.5 (carbon
unchanged) when the unpenalized total cost exceeds the ceiling and the mode
is not performance; in every other case (cost at or below the ceiling, or
performance mode) it returns the unpenalized triple itself. -/
theorem c1_cost_ceiling_penalty (tasks : List Task) (mode : Mode) (mc : ℚ)
    (ind : List ℤ) :
    evaluateSchedule tasks mode (some mc) ind =
      (let u := evaluateSchedule tasks mode none ind
       if mc < u.2.1 ∧ mode ≠ Mode.performance then (u.1 * (3/2), u.2.1 * (3/2), u.2.2)
       else u) := by
  unfold evaluateSchedule
  dsimp only
  split_ifs <;> simp_all

/-- C2: for every schedule built from the task list, day `d`, and resource
type `r`, the daily ledger cell for `(d, r)` equals the sum over tasks
active on `d` (`start ≤ d < start + duration`) of their `(r, quantity)`
requirements, each contributing `quantity * base * mode-multiplier`, where
the base rates come from the case-insensitive substring classification
(crane 1000/50, worker-team-labor 100/5, otherwise 200/10); the raw
quantity is accumulated alongside. -/
theorem c2_daily_ledger_cells (tasks : List Task) (mode : Mode) (ind : List ℤ)
    (d : ℤ) (r : String) :
    (dailyLedger (resourceTypes tasks) (costContrib mode)
        (createScheduleDict tasks mode ind) d r
      = ((createScheduleDict tasks mode ind).map (fun e =>
          if e.start ≤ d ∧ d < e.start + (e.duration : ℤ) then
            (e.resources.map (fun rq =>
              if rq.1 = r then (rq.2 : ℚ) * baseCost rq.1 * costFactor mode else 0)).sum
          else 0)).sum)
    ∧ (dailyLedger (resourceTypes tasks) (carbonContrib mode)
        (createScheduleDict tasks mode ind) d r
      = ((createScheduleDict tasks mode ind).map (fun e =>
          if e.start ≤ d ∧ d < e.start + (e.duration : ℤ) then
            (e.resources.map (fun rq =>
              if rq.1 = r then (rq.2 : ℚ) * baseCarbon rq.1 * carbonFactor mode else 0)).sum
          else 0)).sum)
    ∧ (dailyLedger (resourceTypes tasks) qtyContrib
        (createScheduleDict tasks mode ind) d r
      = ((createScheduleDict tasks mode ind).map (fun e =>
          if e.start ≤ d ∧ d < e.start + (e.duration : ℤ) then
            (e.resources.map (fun rq =>
              if rq.1 = r then (rq.2 : ℚ) else 0)).sum
          else 0)).sum) := by
  refine ⟨?_, ?_, ?_⟩ <;>
  · rw [dailyLedger_eval]
    congr 1
    apply List.map_congr_left
    intro e he
    by_cases hact : e.start ≤ d ∧ d < e.start + (e.duration : ℤ)
    · rw [if_pos hact, if_pos hact,
        resCellSum_of_keys _ _ _ _ (fun rq hrq => mem_resourceTypes_of_entry he hrq)]
      rfl
    · rw [if_neg hact, if_neg hact]

/-- The dependency-derived minimum start of `_mutate_individual`
(scheduler.py lines 99-107): 0 when the task has no dependencies, otherwise
the maximum over dependencies of the dependency's current gene in the same
candidate plus the dependency's RAW integer duration
(`int(self.tasks[...]['duration'])`, not mode-adjusted). -/
def mutMinStart (tasks : List Task) (taskIds : List String) (ind : List ℤ)
    (i : ℕ) : ℤ :=
  if (tasks.getD i default).dependencies = [] then 0
  else
    listMaxZ ((tasks.getD i default).dependencies.map (fun dep =>
      ind.getD (taskIds.indexOf dep) 0
        + ((tasks.getD (taskIds.indexOf dep) default).duration : ℤ)))

/-- The freshly drawn gene at a resampled index:
`random.randint(min_start, min_start + int(task['duration']) * 2)`
(scheduler.py line 109), derandomized by the natural draw `u`. -/
def resampleDraw (tasks : List Task) (taskIds : List String) (ind : List ℤ)
    (i : ℕ) (u : ℕ) : ℤ :=
  mutMinStart tasks taskIds ind i
    + ((u % (2 * (tasks.getD i default).duration + 1) : ℕ) : ℤ)

/-- `_mutate_individual(individual, indpb)` (scheduler.py lines 94-110):
walk the indices in order; at each index the per-gene coin
(`random.random() < indpb`, recorded in `decisions`) decides whether to
resample; a resample writes the drawn value in place, so later indices see
already mutated dependency genes.  `draws` are the `randint` draws consumed
by the taken resamples. -/
def mutateGo (tasks : List Task) (taskIds : List String) :
    List ℤ → ℕ → List Bool → List ℕ → List ℤ
  | ind, i, true :: ds, u :: us =>
      mutateGo tasks taskIds (ind.set i (resampleDraw tasks taskIds ind i u))
        (i + 1) ds us
  | ind, _, true :: _, [] => ind
  | ind, i, false :: ds, us => mutateGo tasks taskIds ind (i + 1) ds us
  | ind, _, [], _ => ind

/-- Replace slice `[p1:p2]` of `a` by the same slice of `b` (the Python
slice assignment in DEAP's `cxTwoPoint`). -/
def spliceSeg (a b : List ℤ) (p1 p2 : ℕ) : List ℤ :=
  a.take p1 ++ ((b.drop p1).take (p2 - p1)) ++ a.drop p2

/-- DEAP `tools.cxTwoPoint(ind1, ind2)`, registered as the `mate` operator
(scheduler.py line 89): with draws `d1 = randint(1, size)` and
`d2 = randint(1, size - 1)`, bump `d2` past `d1` when `d2 >= d1`, otherwise
swap the two cut points, then exchange the slice between them. -/
def cxTwoPoint (a b : List ℤ) (d1 d2 : ℕ) : List ℤ × List ℤ :=
  let p := if d1 ≤ d2 then (d1, d2 + 1) else (d2, d1)
  (spliceSeg a b p.1 p.2, spliceSeg b a p.1 p.2)

section OperatorLemmas

lemma le_foldl_max_init (ys : List ℤ) (a : ℤ) : a ≤ ys.foldl max a := by
  induction ys generalizing a with
  | nil => simp
  | cons y ys ih => exact le_trans (le_max_left a y) (ih (max a y))

lemma le_foldl_max_mem (ys : List ℤ) (a x : ℤ) (hx : x ∈ ys) :
    x ≤ ys.foldl max a := by
  induction ys generalizing a with
  | nil => cases hx
  | cons y ys ih =>
    rcases List.mem_cons.mp hx with rfl | hx'
    · exact le_trans (le_max_right a x) (le_foldl_max_init ys (max a x))
    · exact ih (max a y) hx'

lemma le_listMaxZ {l : List ℤ} {x : ℤ} (hx : x ∈ l) : x ≤ listMaxZ l := by
  cases l with
  | nil => cases hx
  | cons y ys =>
    rcases List.mem_cons.mp hx with rfl | hx'
    · exact le_foldl_max_init ys x
    · exact le_foldl_max_mem ys y x hx'

lemma getD_nonneg {ind : List ℤ} (h : ∀ g ∈ ind, 0 ≤ g) (j : ℕ) :
    0 ≤ ind.getD j 0 := by
  induction ind generalizing j with
  | nil => simp [List.getD]
  | cons hd tl ih =>
    cases j with
    | zero =>
      rw [List.getD_cons_zero]
      exact h hd (List.mem_cons_self _ _)
    | succ j =>
      rw [List.getD_cons_succ]
      exact ih (fun g hg => h g (List.mem_cons_of_mem _ hg)) j

lemma mutMinStart_nonneg (tasks : List Task) (ids : List String) {ind : List ℤ}
    (h : ∀ g ∈ ind, 0 ≤ g) (i : ℕ) : 0 ≤ mutMinStart tasks ids ind i := by
  unfold mutMinStart
  by_cases hdep : (tasks.getD i default).dependencies = []
  · rw [if_pos hdep]
  · rw [if_neg hdep]
    obtain ⟨dep, hdmem⟩ := List.exists_mem_of_ne_nil _ hdep
    have hf : 0 ≤ ind.getD (ids.indexOf dep) 0
        + ((tasks.getD (ids.indexOf dep) default).duration : ℤ) :=
      add_nonneg (getD_nonneg h _) (Int.natCast_nonneg _)
    exact le_trans hf (le_listMaxZ (List.mem_map_of_mem _ hdmem))

lemma resampleDraw_nonneg (tasks : List Task) (ids : List String) {ind : List ℤ}
    (h : ∀ g ∈ ind, 0 ≤ g) (i u : ℕ) : 0 ≤ resampleDraw tasks ids ind i u :=
  add_nonneg (mutMinStart_nonneg tasks ids h i) (Int.natCast_nonneg _)

lemma mutateGo_closure (tasks : List Task) (ids : List String) :
    ∀ (ds : List Bool) (us : List ℕ) (ind : List ℤ) (i : ℕ),
      (∀ g ∈ ind, 0 ≤ g) →
      (mutateGo tasks ids ind i ds us).length = ind.length
        ∧ ∀ g ∈ mutateGo tasks ids ind i ds us, 0 ≤ g := by
  intro ds
  induction ds with
  | nil =>
    intro us ind i h
    simp only [mutateGo]
    exact ⟨by trivial, h⟩
  | cons b ds ih =>
    intro us ind i h
    cases b with
    | false =>
      simp only [mutateGo]
      exact ih us ind (i + 1) h
    | true =>
      cases us with
      | nil =>
        simp only [mutateGo]
        exact ⟨by trivial, h⟩
      | cons u us =>
        simp only [mutateGo]
        have hset : ∀ g ∈ ind.set i (resampleDraw tasks ids ind i u), 0 ≤ g := by
          intro g hg
          rcases List.mem_or_eq_of_mem_set hg with hmem | rfl
          · exact h g hmem
          · exact resampleDraw_nonneg tasks ids h i u
        have hrec := ih us (ind.set i (resampleDraw tasks ids ind i u)) (i + 1) hset
        rw [List.length_set] at hrec
        exact hrec

lemma spliceSeg_length {a b : List ℤ} (hab : a.length = b.length)
    (p1 p2 : ℕ) (hp : p1 ≤ p2) : (spliceSeg a b p1 p2).length = a.length := by
  simp only [spliceSeg, List.length_append, List.length_take, List.length_drop]
  omega

lemma spliceSeg_mem {a b : List ℤ} {p1 p2 : ℕ} {x : ℤ}
    (hx : x ∈ spliceSeg a b p1 p2) : x ∈ a ∨ x ∈ b := by
  simp only [spliceSeg, List.mem_append] at hx
  rcases hx with (hx | hx) | hx
  · exact Or.inl (List.mem_of_mem_take hx)
  · exact Or.inr (List.mem_of_mem_drop (List.mem_of_mem_take hx))
  · exact Or.inl (List.mem_of_mem_drop hx)

lemma cxTwoPoint_cuts_le (d1 d2 : ℕ) :
    (if d1 ≤ d2 then ((d1 : ℕ), d2 + 1) else (d2, d1)).1
      ≤ (if d1 ≤ d2 then ((d1 : ℕ), d2 + 1) else (d2, d1)).2 := by
  by_cases hle : d1 ≤ d2 <;> simp [hle] <;> omega

end OperatorLemmas

/-- The mutation lower bound as the specification words it (spec.md section
4.4): like `mutMinStart` but adding the dependency's mode-adjusted duration
`adjusted_duration(dep) = max(1, floor(duration * duration_multiplier))`.
Defined only for comparison against the source-derived `mutMinStart`. -/
def mutMinStartSpec (mode : Mode) (tasks : List Task) (taskIds : List String)
    (ind : List ℤ) (i : ℕ) : ℤ :=
  if (tasks.getD i default).dependencies = [] then 0
  else
    listMaxZ ((tasks.getD i default).dependencies.map (fun dep =>
      ind.getD (taskIds.indexOf dep) 0
        + (adjDur mode (tasks.getD (taskIds.indexOf dep) default).duration : ℤ)))

/-- Task pair exercising the eco-mode divergence in the mutation bound:
A has duration 10 and no dependencies, B has duration 1 and depends on A. -/
def c5Tasks : List Task :=
  [⟨"A", 10, [], []⟩, ⟨"B", 1, [], ["A"]⟩]

/-- The id list of `c5Tasks` (`self.task_ids`). -/
def c5Ids : List String := ["A", "B"]

/-- C5 counterexample: in eco mode, resampling index 1 of candidate [0, 0]
with draw 0 produces gene 10 = candidate[A] + raw duration of A, while the
lower bound claimed by the specification is candidate[A] +
adjusted_duration(A) = 11; the produced value lies strictly below it, so
the resampled gene is not drawn from the claimed interval. -/
theorem c5_counterexample :
    resampleDraw c5Tasks c5Ids [0, 0] 1 0 = 10
    ∧ mutMinStartSpec Mode.eco c5Tasks c5Ids [0, 0] 1 = 11
    ∧ ¬ (mutMinStartSpec Mode.eco c5Tasks c5Ids [0, 0] 1
          ≤ resampleDraw c5Tasks c5Ids [0, 0] 1 0) := by decide

/-- C5 amended: for every index `i` that is resampled during mutation, the
new gene value is drawn from `[lower, lower + 2 * duration(i)]` where
`lower` is the maximum over task i's dependencies j of (candidate[j] + the
RAW integer duration of j) — not the mode-adjusted duration, which the
mutation operator never consults — or 0 if task i has no dependencies,
using each dependency's current value in the same candidate; the drawn
value is written in place at index i. -/
theorem c5_resample_bounds (tasks : List Task) (ids : List String)
    (ind : List ℤ) (i u : ℕ) (h : i < ind.length) :
    mutMinStart tasks ids ind i ≤ resampleDraw tasks ids ind i u
    ∧ resampleDraw tasks ids ind i u
        ≤ mutMinStart tasks ids ind i + 2 * ((tasks.getD i default).duration : ℤ)
    ∧ (ind.set i (resampleDraw tasks ids ind i u)).getD i 0
        = resampleDraw tasks ids ind i u := by
  refine ⟨le_add_of_nonneg_right (Int.natCast_nonneg _), ?_, ?_⟩
  · unfold resampleDraw
    have hm : u % (2 * (tasks.getD i default).duration + 1)
        ≤ 2 * (tasks.getD i default).duration := by
      have := Nat.mod_lt u (show 0 < 2 * (tasks.getD i default).duration + 1 by omega)
      omega
    have hc : ((u % (2 * (tasks.getD i default).duration + 1) : ℕ) : ℤ)
        ≤ 2 * ((tasks.getD i default).duration : ℤ) := by exact_mod_cast hm
    exact add_le_add_left hc _
  · simp [List.getD_eq_getElem?_getD, List.getElem?_set_self h]

/-- Witness for `c5_resample_bounds` at the concrete counterexample input. -/
theorem c5_resample_bounds_witness :
    mutMinStart c5Tasks c5Ids [0, 0] 1 ≤ resampleDraw c5Tasks c5Ids [0, 0] 1 0
    ∧ resampleDraw c5Tasks c5Ids [0, 0] 1 0
        ≤ mutMinStart c5Tasks c5Ids [0, 0] 1
          + 2 * ((c5Tasks.getD 1 default).duration : ℤ)
    ∧ (([0, 0] : List ℤ).set 1 (resampleDraw c5Tasks c5Ids [0, 0] 1 0)).getD 1 0
        = resampleDraw c5Tasks c5Ids [0, 0] 1 0 :=
  c5_resample_bounds c5Tasks c5Ids [0, 0] 1 0 (by decide)

/-- C9: closure of the genetic operators: on a candidate of non-negative
integer genes, mutation returns a candidate of the same length with all
entries non-negative integers; two-point crossover on two equal-length
non-negative candidates returns two candidates of that same length with
all entries non-negative integers. -/
theorem c9_operator_closure :
    (∀ (tasks : List Task) (ids : List String) (ind : List ℤ) (i : ℕ)
        (ds : List Bool) (us : List ℕ),
        (∀ g ∈ ind, 0 ≤ g) →
        (mutateGo tasks ids ind i ds us).length = ind.length
          ∧ ∀ g ∈ mutateGo tasks ids ind i ds us, 0 ≤ g)
    ∧ (∀ (a b : List ℤ) (d1 d2 : ℕ),
        a.length = b.length →
        (∀ g ∈ a, 0 ≤ g) → (∀ g ∈ b, 0 ≤ g) →
        (cxTwoPoint a b d1 d2).1.length = a.length
          ∧ (cxTwoPoint a b d1 d2).2.length = a.length
          ∧ (∀ g ∈ (cxTwoPoint a b d1 d2).1, 0 ≤ g)
          ∧ (∀ g ∈ (cxTwoPoint a b d1 d2).2, 0 ≤ g)) := by
  constructor
  · intro tasks ids ind i ds us h
    exact mutateGo_closure tasks ids ds us ind i h
  · intro a b d1 d2 hab ha hb
    unfold cxTwoPoint
    dsimp only
    refine ⟨spliceSeg_length hab _ _ (cxTwoPoint_cuts_le d1 d2),
      (spliceSeg_length hab.symm _ _ (cxTwoPoint_cuts_le d1 d2)).trans hab.symm,
      ?_, ?_⟩
    · intro g hg
      rcases spliceSeg_mem hg with h1 | h2
      · exact ha g h1
      · exact hb g h2
    · intro g hg
      rcases spliceSeg_mem hg with h1 | h2
      · exact hb g h1
      · exact ha g h2

/-- Witness for `c9_operator_closure` at concrete candidates. -/
theorem c9_operator_closure_witness :
    ((mutateGo c5Tasks c5Ids [0, 0] 0 [true, false] [3]).length
        = ([0, 0] : List ℤ).length
      ∧ ∀ g ∈ mutateGo c5Tasks c5Ids [0, 0] 0 [true, false] [3], 0 ≤ g)
    ∧ ((cxTwoPoint [0, 1, 2] [3, 4, 5] 1 2).1.length = ([0, 1, 2] : List ℤ).length
        ∧ (cxTwoPoint [0, 1, 2] [3, 4, 5] 1 2).2.length = ([0, 1, 2] : List ℤ).length
        ∧ (∀ g ∈ (cxTwoPoint [0, 1, 2] [3, 4, 5] 1 2).1, 0 ≤ g)
        ∧ (∀ g ∈ (cxTwoPoint [0, 1, 2] [3, 4, 5] 1 2).2, 0 ≤ g)) :=
  ⟨c9_operator_closure.1 c5Tasks c5Ids [0, 0] 0 [true, false] [3] (by decide),
   c9_operator_closure.2 [0, 1, 2] [3, 4, 5] 1 2 (by decide) (by decide) (by decide)⟩

/-- Run configuration of `GeneticAlgorithmScheduler.__init__`
(scheduler.py lines 14-28). -/
structure GAConfig where
  populationSize : ℤ
  generations : ℤ
  mutationRate : ℚ
  maxCost : Option ℚ
deriving DecidableEq, Repr

/-- Dominance weights registered by `_setup_deap_framework`
(scheduler.py lines 61-67). -/
def modeWeights : Mode → ℚ × ℚ × ℚ
  | Mode.eco => (-(1/2), -1, -1)
  | Mode.performance => (-1, -(1/2), -(1/2))
  | Mode.standard => (-1, -1, -1)

/-- The state assembled by `__init__` (scheduler.py lines 14-40): the
stored arguments, the extracted resource types and task ids, the mode's
dominance weights, and the gene upper bound `sum(int(task['duration']))`
used by `attr_start_time` (line 75). -/
structure GAScheduler where
  tasks : List Task
  populationSize : ℤ
  generations : ℤ
  mutationRate : ℚ
  maxCost : Option ℚ
  mode : Mode
  resourceTypes : List String
  taskIds : List String
  weights : ℚ × ℚ × ℚ
  maxDurationSum : ℕ
deriving Repr

/-- `GeneticAlgorithmScheduler(...)` construction (scheduler.py lines
14-40): the constructor stores the arguments and registers the DEAP
toolbox; it contains no validation of population size, generations, or
mutation rate and raises on none of them, so it always returns the
assembled scheduler. -/
def mkScheduler (tasks : List Task) (cfg : GAConfig) (mode : Mode) :
    Except String GAScheduler :=
  Except.ok
    { tasks := tasks
      populationSize := cfg.populationSize
      generations := cfg.generations
      mutationRate := cfg.mutationRate
      maxCost := cfg.maxCost
      mode := mode
      resourceTypes := resourceTypes tasks
      taskIds := tasks.map (fun t => t.id)
      weights := modeWeights mode
      maxDurationSum := (tasks.map (fun t => t.duration)).sum }

/-- Whether an `Except` result is a success. -/
def exceptOk {ε α : Type} : Except ε α → Bool
  | Except.ok _ => true
  | Except.error _ => false

/-- One item of the final `schedule` list (scheduler.py lines 276-284). -/
structure ScheduleItem where
  task : String
  start : ℤ
  endDay : ℤ
  duration : ℕ
  resources : List String
  cost : ℚ
  carbon : ℚ
deriving DecidableEq, Repr

/-- The final optimization result (scheduler.py lines 289-296). -/
structure OptimizationResult where
  schedule : List ScheduleItem
  totalCost : ℚ
  totalDuration : ℤ
  carbonFootprint : ℚ
  resourceUtilization : List (String × ℚ)
  mode : Mode
deriving DecidableEq, Repr

/-- Stable insertion into a list sorted by `start`: `x` is placed before
the first element whose start is not smaller, so items with equal starts
keep their relative order, modelling Python's stable `list.sort`. -/
def insertByStart (x : ScheduleItem) : List ScheduleItem → List ScheduleItem
  | [] => [x]
  | y :: ys => if y.start < x.start then y :: insertByStart x ys else x :: y :: ys

/-- Stable sort of the schedule items by start time (scheduler.py line 287). -/
def sortByStart : List ScheduleItem → List ScheduleItem
  | [] => []
  | x :: xs => insertByStart x (sortByStart xs)

/-- Per-task cost (or carbon) reported in the final schedule (scheduler.py
lines 268-274): sum over the task's own resource types (outer) and its
active day range (inner) of the corresponding ledger cells, read with
default 0. -/
def itemCost (L : ℤ → String → ℚ) (e : SchedEntry) : ℚ :=
  ((e.resources.map Prod.fst).map (fun rt =>
    ((intRange e.start e.duration).map (fun d => L d rt)).sum)).sum

/-- Resource-utilization mapping of the GA scheduler's final output
(scheduler.py lines 248-259): for each resource type, the number of days in
`range(max_day + 1)` that are ledger keys with positive quantity, divided
by `max_day + 1` and scaled to percent — or 0 when `max_day = 0`. -/
def gaUtilization (rts : List String) (days : List ℤ) (Lqty : ℤ → String → ℚ) :
    List (String × ℚ) :=
  let maxDay := listMaxZ days
  rts.map (fun r =>
    let active := ((intRange 0 (maxDay + 1).toNat).filter
      (fun d => decide (d ∈ days) && decide (0 < Lqty d r))).length
    (r, if 0 < maxDay then ((active : ℚ) / ((maxDay : ℚ) + 1)) * 100 else 0))

/-- The tail of `optimize` (scheduler.py lines 220-298): convert the best
individual to a schedule dict, recompute duration, totals, utilization and
the per-task items from the daily ledger, and sort the items by start. -/
def buildOutput (tasks : List Task) (mode : Mode) (best : List ℤ) :
    OptimizationResult :=
  let sched := createScheduleDict tasks mode best
  let rts := resourceTypes tasks
  let Lcost := dailyLedger rts (costContrib mode) sched
  let Lcarbon := dailyLedger rts (carbonContrib mode) sched
  let Lqty := dailyLedger rts qtyContrib sched
  let days := ledgerDays sched
  let items := sched.map (fun e =>
    { task := e.id
      start := e.start
      endDay := e.start + (e.duration : ℤ)
      duration := e.duration
      resources := e.resources.map Prod.fst
      cost := itemCost Lcost e
      carbon := itemCost Lcarbon e : ScheduleItem })
  { schedule := sortByStart items
    totalCost := ledgerTotal rts Lcost days
    totalDuration := listMaxZ (endTimes sched)
    carbonFootprint := ledgerTotal rts Lcarbon days
    resourceUtilization := gaUtilization rts days Lqty
    mode := mode }

/-- Oracle data for one generation of `algorithms.eaSimple` (scheduler.py
lines 209-218): the indices of the individuals returned by `selNSGA2`, the
per-pair crossover record (flag = the `random() < cxpb` coin; the two
numbers are the `cxTwoPoint` cut draws, consulted only when the flag is
true), and the per-individual mutation decisions and draws (an all-false
decision vector also covers a failed `mutpb` coin). -/
structure StepChoices where
  selIdxs : List ℕ
  cxChoices : List (Bool × ℕ × ℕ)
  mutChoices : List (List Bool × List ℕ)
deriving Repr

/-- Oracle data for a whole run of `optimize` (scheduler.py lines 201-298):
the initial population, the per-generation choices, and the index of the
individual returned by `selBest`. -/
structure RunChoices where
  initPop : List (List ℤ)
  steps : List StepChoices
  bestIdx : ℕ
deriving Repr

/-- Selection resolved by the recorded indices: `selNSGA2` (like `selBest`)
returns individuals of its input population. -/
def selDet (pop : List (List ℤ)) (idxs : List ℕ) : List (List ℤ) :=
  idxs.map (fun i => pop.getD i [])

/-- The pairwise crossover pass of `varAnd`: pairs `(0,1), (2,3), ...`
stay unchanged when the cxpb coin failed and are otherwise replaced by the
two-point crossover of the pair at the recorded cut draws. -/
def pairwiseCxDet : List (List ℤ) → List (Bool × ℕ × ℕ) → List (List ℤ)
  | a :: b :: rest, c :: cs =>
      if c.1 then
        (cxTwoPoint a b c.2.1 c.2.2).1 :: (cxTwoPoint a b c.2.1 c.2.2).2
          :: pairwiseCxDet rest cs
      else a :: b :: pairwiseCxDet rest cs
  | pop, _ => pop

/-- The mutation pass of `varAnd`: each individual is mutated in place with
its recorded decisions and draws. -/
def eachMutDet (tasks : List Task) (ids : List String)
    (pop : List (List ℤ)) (mc : List (List Bool × List ℕ)) : List (List ℤ) :=
  (pop.zip mc).map (fun p => mutateGo tasks ids p.1 0 p.2.1 p.2.2)

/-- One generation of `eaSimple`: select a mating pool, cross pairs over,
mutate, and make the offspring the next population. -/
def gaStep (tasks : List Task) (ids : List String)
    (pop : List (List ℤ)) (st : StepChoices) : List (List ℤ) :=
  eachMutDet tasks ids (pairwiseCxDet (selDet pop st.selIdxs) st.cxChoices)
    st.mutChoices

/-- A full run of `optimize` under the recorded choices: run the
generational loop from the initial population, pick the recorded best
individual of the final population, and build the final result from it. -/
def runDet (tasks : List Task) (mode : Mode) (ch : RunChoices) :
    OptimizationResult :=
  let ids := tasks.map (fun t => t.id)
  let popF := ch.steps.foldl (gaStep tasks ids) ch.initPop
  buildOutput tasks mode (popF.getD ch.bestIdx [])

/-- Validity of one generation's choices: selection returns `psize`
individuals of the population, crossover draws are legal `randint`
outcomes (`d1 = randint(1, size)`, `d2 = randint(1, size - 1)`), and each
individual has one mutation coin per gene. -/
abbrev StepOK (tasks : List Task) (psize : ℕ) (st : StepChoices) : Prop :=
  st.selIdxs.length = psize
  ∧ (∀ i ∈ st.selIdxs, i < psize)
  ∧ (∀ c ∈ st.cxChoices, c.1 = true →
      1 ≤ c.2.1 ∧ c.2.1 ≤ tasks.length ∧ 1 ≤ c.2.2 ∧ c.2.2 ≤ tasks.length - 1)
  ∧ st.mutChoices.length = psize
  ∧ (∀ mc ∈ st.mutChoices, mc.1.length = tasks.length)

/-- Validity of the recorded choices of a whole run with population size
`psize` and `ngen` generations: the initial genes are outcomes of
`randint(0, sum of raw durations)` (scheduler.py lines 75-76), there is one
valid choice record per generation, and the best index points into the
final population. -/
abbrev ValidChoices (tasks : List Task) (psize ngen : ℕ) (ch : RunChoices) : Prop :=
  ch.initPop.length = psize
  ∧ (∀ ind ∈ ch.initPop, ind.length = tasks.length
      ∧ ∀ g ∈ ind, 0 ≤ g ∧ g ≤ ((tasks.map (fun t => t.duration)).sum : ℤ))
  ∧ ch.steps.length = ngen
  ∧ (∀ st ∈ ch.steps, StepOK tasks psize st)
  ∧ ch.bestIdx < psize

/-- The scenario task set of spec.md section 8: A(duration 2, no
dependencies), B(duration 3, depends on A), C(duration 1, depends on A and
B); no resource requirements are specified. -/
def scenarioTasks : List Task :=
  [⟨"A", 2, [], []⟩, ⟨"B", 3, [], ["A"]⟩, ⟨"C", 1, [], ["A", "B"]⟩]

/-- A run on the scenario in which every initial gene is drawn as 0, no
crossover or mutation coin ever fires, selection returns the whole
population, and the first individual is reported best.  Every recorded
draw is a legal outcome of the corresponding `random` call. -/
def zeroRunChoices : RunChoices :=
  { initPop := List.replicate 10 [0, 0, 0]
    steps := List.replicate 5
      { selIdxs := List.range 10
        cxChoices := List.replicate 5 (false, 1, 1)
        mutChoices := List.replicate 10 ([false, false, false], []) }
    bestIdx := 0 }

/-- Like `zeroRunChoices` but with every initial gene drawn as 6 (the
largest legal `randint(0, sum of durations)` outcome). -/
def sixRunChoices : RunChoices :=
  { initPop := List.replicate 10 [6, 6, 6]
    steps := List.replicate 5
      { selIdxs := List.range 10
        cxChoices := List.replicate 5 (false, 1, 1)
        mutChoices := List.replicate 10 ([false, false, false], []) }
    bestIdx := 0 }

example : ValidChoices scenarioTasks 10 5 zeroRunChoices := by decide
example : (runDet scenarioTasks Mode.standard zeroRunChoices).totalDuration = 3 := by decide
example : (runDet scenarioTasks Mode.standard sixRunChoices).totalDuration = 9 := by decide

section RunInvariant

/-- Every individual of the population has `n` non-negative genes. -/
def PopOK (n : ℕ) (pop : List (List ℤ)) : Prop :=
  ∀ ind ∈ pop, ind.length = n ∧ ∀ g ∈ ind, 0 ≤ g

lemma getD_mem_of_lt {pop : List (List ℤ)} {i : ℕ} (h : i < pop.length) :
    pop.getD i [] ∈ pop := by
  rw [List.getD_eq_getElem?_getD, List.getElem?_eq_getElem h]
  exact List.getElem_mem h

lemma selDet_popOK {n : ℕ} {pop : List (List ℤ)} (hpop : PopOK n pop)
    {idxs : List ℕ} (hidx : ∀ i ∈ idxs, i < pop.length) :
    PopOK n (selDet pop idxs) := by
  intro ind hind
  simp only [selDet, List.mem_map] at hind
  obtain ⟨i, hi, rfl⟩ := hind
  exact hpop _ (getD_mem_of_lt (hidx i hi))

lemma popOK_cons {n : ℕ} {x : List ℤ} {pop : List (List ℤ)}
    (hx : x.length = n ∧ ∀ g ∈ x, 0 ≤ g) (hpop : PopOK n pop) :
    PopOK n (x :: pop) := by
  intro ind hind
  rcases List.mem_cons.mp hind with rfl | h
  · exact hx
  · exact hpop ind h

lemma popOK_of_cons {n : ℕ} {x : List ℤ} {pop : List (List ℤ)}
    (h : PopOK n (x :: pop)) :
    (x.length = n ∧ ∀ g ∈ x, 0 ≤ g) ∧ PopOK n pop :=
  ⟨h x (List.mem_cons_self _ _), fun ind hind => h ind (List.mem_cons_of_mem _ hind)⟩

lemma cx_half_ok {n : ℕ} {a b : List ℤ} (ha : a.length = n ∧ ∀ g ∈ a, 0 ≤ g)
    (hb : b.length = n ∧ ∀ g ∈ b, 0 ≤ g) (d1 d2 : ℕ) :
    ((cxTwoPoint a b d1 d2).1.length = n ∧ ∀ g ∈ (cxTwoPoint a b d1 d2).1, 0 ≤ g)
    ∧ ((cxTwoPoint a b d1 d2).2.length = n ∧ ∀ g ∈ (cxTwoPoint a b d1 d2).2, 0 ≤ g) := by
  have hab : a.length = b.length := ha.1.trans hb.1.symm
  unfold cxTwoPoint
  dsimp only
  refine ⟨⟨(spliceSeg_length hab _ _ (cxTwoPoint_cuts_le d1 d2)).trans ha.1, ?_⟩,
    ⟨(spliceSeg_length hab.symm _ _ (cxTwoPoint_cuts_le d1 d2)).trans hb.1, ?_⟩⟩
  · intro g hg
    rcases spliceSeg_mem hg with h1 | h2
    · exact ha.2 g h1
    · exact hb.2 g h2
  · intro g hg
    rcases spliceSeg_mem hg with h1 | h2
    · exact hb.2 g h1
    · exact ha.2 g h2

lemma pairwiseCxDet_popOK {n : ℕ} :
    ∀ (pop : List (List ℤ)) (cs : List (Bool × ℕ × ℕ)), PopOK n pop →
      (pairwiseCxDet pop cs).length = pop.length ∧ PopOK n (pairwiseCxDet pop cs)
  | a :: b :: rest, c :: cs, h => by
      obtain ⟨ha, h'⟩ := popOK_of_cons h
      obtain ⟨hb, hrest⟩ := popOK_of_cons h'
      obtain ⟨ihlen, ihok⟩ := pairwiseCxDet_popOK rest cs hrest
      by_cases hc : c.1
      · rw [pairwiseCxDet, if_pos hc]
        obtain ⟨hx, hy⟩ := cx_half_ok ha hb c.2.1 c.2.2
        exact ⟨by simp [ihlen], popOK_cons hx (popOK_cons hy ihok)⟩
      · rw [pairwiseCxDet, if_neg hc]
        exact ⟨by simp [ihlen], popOK_cons ha (popOK_cons hb ihok)⟩
  | [], cs, h => ⟨rfl, h⟩
  | [a], cs, h => ⟨rfl, h⟩
  | a :: b :: rest, [], h => ⟨rfl, h⟩

lemma eachMutDet_popOK {n : ℕ} (tasks : List Task) (ids : List String)
    {pop : List (List ℤ)} {mc : List (List Bool × List ℕ)}
    (hpop : PopOK n pop) (hlen : mc.length = pop.length) :
    (eachMutDet tasks ids pop mc).length = pop.length
      ∧ PopOK n (eachMutDet tasks ids pop mc) := by
  constructor
  · simp [eachMutDet, hlen]
  · intro ind hind
    simp only [eachMutDet, List.mem_map] at hind
    obtain ⟨p, hp, rfl⟩ := hind
    have hmem : p.1 ∈ pop := (List.of_mem_zip hp).1
    obtain ⟨hl, hnn⟩ := hpop p.1 hmem
    have hmut := mutateGo_closure tasks ids p.2.1 p.2.2 p.1 0 hnn
    exact ⟨hmut.1.trans hl, hmut.2⟩

lemma gaStep_popInv {n psize : ℕ} (tasks : List Task) (ids : List String)
    {pop : List (List ℤ)} (hlen : pop.length = psize) (hpop : PopOK n pop)
    {st : StepChoices} (hst : StepOK tasks psize st) :
    (gaStep tasks ids pop st).length = psize ∧ PopOK n (gaStep tasks ids pop st) := by
  obtain ⟨hsel, hselmem, _hcx, hmutlen, _hmut⟩ := hst
  have hselok : PopOK n (selDet pop st.selIdxs) :=
    selDet_popOK hpop (fun i hi => hlen ▸ hselmem i hi)
  have hsellen : (selDet pop st.selIdxs).length = psize := by
    simp [selDet, hsel]
  obtain ⟨hcxlen, hcxok⟩ := pairwiseCxDet_popOK (selDet pop st.selIdxs) st.cxChoices hselok
  have hmc : st.mutChoices.length = (pairwiseCxDet (selDet pop st.selIdxs) st.cxChoices).length := by
    rw [hcxlen, hsellen, hmutlen]
  obtain ⟨hfinlen, hfinok⟩ := eachMutDet_popOK tasks ids hcxok hmc
  refine ⟨?_, hfinok⟩
  unfold gaStep
  rw [hfinlen, hcxlen, hsellen]

lemma foldl_gaStep_popInv {n psize : ℕ} (tasks : List Task) (ids : List String) :
    ∀ (steps : List StepChoices) (pop : List (List ℤ)),
      pop.length = psize → PopOK n pop → (∀ st ∈ steps, StepOK tasks psize st) →
      (steps.foldl (gaStep tasks ids) pop).length = psize
        ∧ PopOK n (steps.foldl (gaStep tasks ids) pop) := by
  intro steps
  induction steps with
  | nil => intro pop h1 h2 _; exact ⟨h1, h2⟩
  | cons st rest ih =>
    intro pop h1 h2 hok
    obtain ⟨h1', h2'⟩ :=
      gaStep_popInv tasks ids h1 h2 (hok st (List.mem_cons_self _ _))
    exact ih (gaStep tasks ids pop st) h1' h2'
      (fun s hs => hok s (List.mem_cons_of_mem _ hs))

lemma length_eq_three {l : List ℤ} (h : l.length = 3) :
    ∃ a b c, l = [a, b, c] := by
  cases l with
  | nil => simp at h
  | cons a t =>
    cases t with
    | nil => simp at h
    | cons b t2 =>
      cases t2 with
      | nil => simp at h
      | cons c t3 =>
        cases t3 with
        | nil => exact ⟨a, b, c, rfl⟩
        | cons d t4 => simp at h

end RunInvariant

/-- C3 counterexample: the all-zero run is a valid resolution of every
random draw of the optimizer on the scenario (population 10, 5
generations, standard mode), and it returns total_duration 3, which is
less than the claimed lower bound 6 — dependency feasibility is never
enforced, so the critical-path bound does not hold on every run. -/
theorem c3_counterexample :
    ValidChoices scenarioTasks 10 5 zeroRunChoices
    ∧ (runDet scenarioTasks Mode.standard zeroRunChoices).totalDuration = 3
    ∧ ¬ (6 ≤ (runDet scenarioTasks Mode.standard zeroRunChoices).totalDuration) := by
  refine ⟨?_, ?_, ?_⟩ <;> decide

/-- C3 amended: on the scenario tasks (A:2 no deps, B:3 after A, C:1 after
A and B; standard mode, population 10, 5 generations), every run of the
optimizer returns a total_duration of at least 3 — the largest adjusted
task duration — but not necessarily 6: the all-zero run of
`c3_counterexample` attains exactly 3, because neither initialization,
crossover, mutation, nor the evaluator enforces dependency order. -/
theorem c3_duration_lower_bound (ch : RunChoices)
    (h : ValidChoices scenarioTasks 10 5 ch) :
    3 ≤ (runDet scenarioTasks Mode.standard ch).totalDuration := by
  obtain ⟨hlen, hinit, _hsteps, hok, hbest⟩ := h
  have hpop : PopOK 3 ch.initPop := by
    intro ind hind
    obtain ⟨hl, hg⟩ := hinit ind hind
    exact ⟨hl, fun g hgm => (hg g hgm).1⟩
  obtain ⟨hflen, hfok⟩ :=
    foldl_gaStep_popInv scenarioTasks (scenarioTasks.map (fun t => t.id))
      ch.steps ch.initPop hlen hpop hok
  set popF := ch.steps.foldl (gaStep scenarioTasks (scenarioTasks.map (fun t => t.id)))
    ch.initPop with hpopF
  have hbestmem : popF.getD ch.bestIdx [] ∈ popF :=
    getD_mem_of_lt (by rw [hflen]; exact hbest)
  obtain ⟨hblen, hbnn⟩ := hfok _ hbestmem
  obtain ⟨g0, g1, g2, hbeq⟩ := length_eq_three hblen
  have hg1 : 0 ≤ g1 := hbnn g1 (by rw [hbeq]; simp)
  have hshow : (runDet scenarioTasks Mode.standard ch).totalDuration
      = listMaxZ [g0 + 2, g1 + 3, g2 + 1] := by
    show (buildOutput scenarioTasks Mode.standard (popF.getD ch.bestIdx [])).totalDuration
      = listMaxZ [g0 + 2, g1 + 3, g2 + 1]
    rw [hbeq]
    rfl
  rw [hshow]
  have hmem : g1 + 3 ∈ [g0 + 2, g1 + 3, g2 + 1] := by simp
  have := le_listMaxZ hmem
  omega

/-- Witness for `c3_duration_lower_bound` at the all-zero run. -/
theorem c3_duration_lower_bound_witness :
    3 ≤ (runDet scenarioTasks Mode.standard zeroRunChoices).totalDuration :=
  c3_duration_lower_bound zeroRunChoices (by decide)

/-- C6 counterexample: two runs with identical task inputs and
configuration (scenario tasks, population 10, 5 generations, standard
mode), both valid resolutions of the optimizer's random draws, produce
different outputs (total durations 3 and 9): since the optimizer exposes no
random_seed at all, identical inputs and configuration do not determine the
output. -/
theorem c6_counterexample :
    ValidChoices scenarioTasks 10 5 zeroRunChoices
    ∧ ValidChoices scenarioTasks 10 5 sixRunChoices
    ∧ runDet scenarioTasks Mode.standard zeroRunChoices
        ≠ runDet scenarioTasks Mode.standard sixRunChoices := by
  refine ⟨by decide, by decide, ?_⟩
  intro h
  have h3 := congrArg OptimizationResult.totalDuration h
  revert h3
  decide

/-- C6 amended: the scheduler has no random_seed parameter, so a fixed seed
cannot be supplied through its configuration and identical inputs alone do
not determine the output (`c6_counterexample`); determinism holds relative
to the random draws: two runs with identical tasks, mode, and identical
recorded values of every random draw produce identical outputs. -/
theorem c6_draws_determinism (tasks : List Task) (mode : Mode)
    (ch ch' : RunChoices) (h : ch = ch') :
    runDet tasks mode ch = runDet tasks mode ch' := by rw [h]

/-- Witness for `c6_draws_determinism` at the all-zero run. -/
theorem c6_draws_determinism_witness :
    runDet scenarioTasks Mode.standard zeroRunChoices
      = runDet scenarioTasks Mode.standard zeroRunChoices :=
  c6_draws_determinism scenarioTasks Mode.standard zeroRunChoices zeroRunChoices rfl

/-- C7 counterexample: the configuration with population_size -1,
generations -1 and mutation rate 2 violates every validity condition of the
claim, yet the constructor accepts it: no configuration error is raised
before the evolutionary loop. -/
theorem c7_counterexample :
    ((-1 : ℤ) ≤ 0 ∧ (-1 : ℤ) ≤ 0 ∧ ¬ ((0 : ℚ) ≤ 2 ∧ (2 : ℚ) ≤ 1))
    ∧ exceptOk (mkScheduler scenarioTasks ⟨-1, -1, 2, none⟩ Mode.standard) = true := by
  decide

/-- C7 amended: `__init__` performs no configuration validation at all:
every configuration — including non-positive population size or
generations and mutation rates outside [0, 1] — is accepted without any
error, and the evolutionary loop is subsequently entered as usual. -/
theorem c7_no_config_validation (tasks : List Task) (cfg : GAConfig) (mode : Mode) :
    exceptOk (mkScheduler tasks cfg mode) = true := rfl

section SumSwap

lemma sum_map_add {α : Type} (l : List α) (f g : α → ℚ) :
    (l.map (fun x => f x + g x)).sum = (l.map f).sum + (l.map g).sum := by
  induction l with
  | nil => simp
  | cons h t ih =>
    simp only [List.map_cons, List.sum_cons, ih]
    ring

lemma sum_map_swap {α β : Type} (xs : List α) (ys : List β) (f : α → β → ℚ) :
    (xs.map (fun x => (ys.map (fun y => f x y)).sum)).sum
      = (ys.map (fun y => (xs.map (fun x => f x y)).sum)).sum := by
  induction xs with
  | nil => simp
  | cons x xs ih =>
    simp only [List.map_cons, List.sum_cons, ih, sum_map_add]

end SumSwap

/-- Two one-day tasks that share the `worker` resource type on day 0. -/
def c10Tasks : List Task :=
  [⟨"T1", 1, [("worker", 1)], []⟩, ⟨"T2", 1, [("worker", 1)], []⟩]

/-- C10: in the final result, each task's reported cost is the sum of the
day-indexed ledger's cost cells over the task's `[start, start+duration)`
day range restricted to the resource types the task uses (first conjunct,
for every schedule entry and ledger); since each cell aggregates every task
using that type on that day, two tasks sharing `worker` on day 0 each
report the full 200 for that cell while the total cost is only 200, so the
per-task costs sum to 400 > 200 (remaining conjuncts). -/
theorem c10_per_task_ledger_overcount :
    (∀ (tasks : List Task) (mode : Mode) (ind : List ℤ) (e : SchedEntry),
        itemCost (dailyLedger (resourceTypes tasks) (costContrib mode)
            (createScheduleDict tasks mode ind)) e
          = ((intRange e.start e.duration).map (fun d =>
              ((e.resources.map Prod.fst).map (fun rt =>
                dailyLedger (resourceTypes tasks) (costContrib mode)
                  (createScheduleDict tasks mode ind) d rt)).sum)).sum)
    ∧ ((buildOutput c10Tasks Mode.standard [0, 0]).schedule.map ScheduleItem.cost
        = [200, 200])
    ∧ (buildOutput c10Tasks Mode.standard [0, 0]).totalCost = 200
    ∧ (((buildOutput c10Tasks Mode.standard [0, 0]).schedule.map ScheduleItem.cost).sum
        > (buildOutput c10Tasks Mode.standard [0, 0]).totalCost) := by
  refine ⟨?_, by decide, by decide, by decide⟩
  intro tasks mode ind e
  unfold itemCost
  exact sum_map_swap (e.resources.map Prod.fst) (intRange e.start e.duration)
    (fun rt d => dailyLedger (resourceTypes tasks) (costContrib mode)
      (createScheduleDict tasks mode ind) d rt)

/-! ## ResourceOptimizer (resource_optimizer.py)

`optimize_schedule` computes earliest starts over a topological order using
RAW durations, then builds a resource timeline using mode-ADJUSTED
durations against a timeline sized from the raw ones, and divides active
periods by `max_end_time` when computing utilization. -/

/-- One inner pass of the earliest-start computation (resource_optimizer.py
lines 172-177): for each dependency in turn,
`earliest_start[t] = max(earliest_start[t], earliest_start[dep] +
task_dict[dep]["duration"])`, reading the current table at each step.  The
durations are the RAW input durations, with no mode adjustment. -/
def esStep (dur : String → ℕ) (t : String) (deps : List String)
    (es : String → ℕ) : String → ℕ :=
  deps.foldl
    (fun es' d => fun n => if n = t then max (es' t) (es' d + dur d) else es' n)
    es

/-- The earliest-start loop over the topological order
(resource_optimizer.py lines 169-177). -/
def esLoop (dur : String → ℕ) (depsOf : String → List String) :
    List String → (String → ℕ) → String → ℕ
  | [], es => es
  | t :: rest, es => esLoop dur depsOf rest (esStep dur t (depsOf t) es)

/-- `earliest_start` as computed by `optimize_schedule`: the loop of lines
169-177 run from the all-zero table over the order produced by
`topoOrderDFS` below, i.e. the REVERSED DFS post-order of line 165, in
which every dependency occurs strictly later than its dependents. -/
def earliestStart (dur : String → ℕ) (depsOf : String → List String)
    (order : List String) : String → ℕ :=
  esLoop dur depsOf order (fun _ => 0)

/-- The recursive `visit` of `optimize_schedule` (resource_optimizer.py
lines 150-159): raise on a task still on the recursion stack (`temp`),
skip already visited tasks, otherwise visit all dependencies first and
append the task afterwards (post-order), so the accumulated order lists
dependencies before dependents.  The state is (visited, order); `fuel`
bounds the recursion depth, and any value above the number of distinct
task names suffices. -/
def visitDFS (depsOf : String → List String) :
    ℕ → List String → String → List String × List String →
    Except String (List String × List String)
  | 0, _, _, _ => Except.error "fuel exhausted"
  | fuel + 1, temp, t, st =>
      if t ∈ temp then Except.error "circular dependency"
      else if t ∈ st.1 then Except.ok st
      else
        match (depsOf t).foldlM
            (fun st2 d => visitDFS depsOf fuel (t :: temp) d st2) st with
        | Except.error e => Except.error e
        | Except.ok (v, o) => Except.ok (t :: v, o ++ [t])

/-- The order construction of `optimize_schedule` (resource_optimizer.py
lines 146-165): DFS from every task in input order, then
`order.reverse()`.  The DFS post-order is dependencies-first, so the
reversed order actually fed to the earliest-start loop lists every
dependency strictly AFTER its dependents. -/
def topoOrderDFS (depsOf : String → List String) (names : List String)
    (fuel : ℕ) : Except String (List String) :=
  (names.foldlM
      (fun st t => if t ∈ st.1 then Except.ok st else visitDFS depsOf fuel [] t st)
      ([], [])).map (fun st => st.2.reverse)

/-- `max_end_time` (resource_optimizer.py line 186): maximum over the order
of earliest start plus RAW duration. -/
def roMaxEnd (dur : String → ℕ) (es : String → ℕ) (order : List String) : ℕ :=
  listMaxNat (order.map (fun t => es t + dur t))

/-- The resource timeline of `optimize_schedule` (resource_optimizer.py
lines 187 and 212-216): one usage counter per resource and day
`0 ≤ t ≤ max_end_time`; each task increments the counters of its required
resources over `[start, start + adjusted_duration)`, guarded by the index
check `t < len(resource_timeline[res]) = max_end_time + 1`. -/
def roTimeline (dur : String → ℕ) (resOf : String → List String)
    (es : String → ℕ) (mode : Mode) (order : List String) :
    String → ℕ → ℕ :=
  order.foldl
    (fun tl t =>
      (resOf t).foldl
        (fun tl1 res =>
          ((List.range (adjDur mode (dur t))).map (fun k => es t + k)).foldl
            (fun tl2 tt =>
              if tt < roMaxEnd dur es order + 1 then
                fun r d => if r = res ∧ d = tt then tl2 r d + 1 else tl2 r d
              else tl2)
            tl1)
        tl)
    (fun _ _ => 0)

/-- `active_periods` of a resource (resource_optimizer.py line 233): the
number of cells of its timeline (length `max_end_time + 1`) with positive
usage. -/
def roActivePeriods (tl : String → ℕ → ℕ) (maxEnd : ℕ) (res : String) : ℕ :=
  ((List.range (maxEnd + 1)).filter (fun t => decide (0 < tl res t))).length

/-- A resource's utilization percentage (resource_optimizer.py lines
232-238): `active_periods / max_end_time * 100` when `max_end_time > 0`
(note the denominator is `max_end_time`, not the timeline length
`max_end_time + 1`), else 0. -/
def roUtilization (dur : String → ℕ) (resOf : String → List String)
    (es : String → ℕ) (mode : Mode) (order : List String) (res : String) : ℚ :=
  let maxEnd := roMaxEnd dur es order
  let active := roActivePeriods (roTimeline dur resOf es mode order) maxEnd res
  if 0 < maxEnd then ((active : ℚ) / (maxEnd : ℚ)) * 100 else 0

section EarliestStartLemmas

lemma foldl_congr_mem {α β : Type} (l : List α) (f g : β → α → β) (i : β)
    (h : ∀ b, ∀ x ∈ l, f b x = g b x) : l.foldl f i = l.foldl g i := by
  induction l generalizing i with
  | nil => rfl
  | cons x xs ih =>
    rw [List.foldl_cons, List.foldl_cons, h i x (List.mem_cons_self _ _)]
    exact ih _ (fun b y hy => h b y (List.mem_cons_of_mem _ hy))

lemma esStep_ne (dur : String → ℕ) (t : String) (deps : List String)
    (es : String → ℕ) {n : String} (hn : n ≠ t) :
    esStep dur t deps es n = es n := by
  induction deps generalizing es with
  | nil => rfl
  | cons d ds ih =>
    unfold esStep
    rw [List.foldl_cons]
    have hrec := ih (fun n' => if n' = t then max (es t) (es d + dur d) else es n')
    unfold esStep at hrec
    rw [hrec]
    exact if_neg hn

lemma esStep_eq (dur : String → ℕ) (t : String) (deps : List String)
    (es : String → ℕ) (ht : t ∉ deps) :
    esStep dur t deps es t
      = deps.foldl (fun a d => max a (es d + dur d)) (es t) := by
  induction deps generalizing es with
  | nil => rfl
  | cons d ds ih =>
    have hts : t ∉ ds := fun h => ht (List.mem_cons_of_mem _ h)
    unfold esStep
    rw [List.foldl_cons, List.foldl_cons]
    have hrec := ih (fun n' => if n' = t then max (es t) (es d + dur d) else es n') hts
    unfold esStep at hrec
    rw [hrec]
    have hbase : (fun n' => if n' = t then max (es t) (es d + dur d) else es n') t
        = max (es t) (es d + dur d) := if_pos rfl
    rw [hbase]
    apply foldl_congr_mem
    intro a x hx
    have hxt : x ≠ t := fun h => hts (h ▸ hx)
    dsimp only
    rw [if_neg hxt]

lemma esLoop_append (dur : String → ℕ) (depsOf : String → List String)
    (l1 l2 : List String) (es : String → ℕ) :
    esLoop dur depsOf (l1 ++ l2) es
      = esLoop dur depsOf l2 (esLoop dur depsOf l1 es) := by
  induction l1 generalizing es with
  | nil => rfl
  | cons t ts ih =>
    show esLoop dur depsOf (ts ++ l2) (esStep dur t (depsOf t) es)
      = esLoop dur depsOf l2 (esLoop dur depsOf ts (esStep dur t (depsOf t) es))
    exact ih _

lemma esLoop_notMem (dur : String → ℕ) (depsOf : String → List String)
    (l : List String) {n : String} :
    ∀ es : String → ℕ, n ∉ l → esLoop dur depsOf l es n = es n := by
  induction l with
  | nil => intro es _; rfl
  | cons t ts ih =>
    intro es hn
    have hnt : n ≠ t := fun h => hn (h ▸ List.mem_cons_self _ _)
    have hnts : n ∉ ts := fun h => hn (List.mem_cons_of_mem _ h)
    show esLoop dur depsOf ts (esStep dur t (depsOf t) es) n = es n
    rw [ih _ hnts, esStep_ne dur t _ es hnt]

end EarliestStartLemmas

lemma getD_mem_str {l : List String} {j : ℕ} (h : j < l.length) :
    l.getD j "" ∈ l := by
  rw [List.getD_eq_getElem?_getD, List.getElem?_eq_getElem h]
  exact List.getElem_mem h

lemma getD_mem_drop {l : List String} :
    ∀ i j, i ≤ j → j < l.length → l.getD j "" ∈ l.drop i := by
  induction l with
  | nil =>
    intro i j _ hj
    simp at hj
  | cons x xs ih =>
    intro i j hij hj
    cases i with
    | zero =>
      rw [List.drop_zero]
      exact getD_mem_str hj
    | succ i2 =>
      cases j with
      | zero => omega
      | succ j2 =>
        rw [List.drop_succ_cons, List.getD_cons_succ]
        exact ih i2 j2 (by omega) (by simpa using hj)

/-- C8 amended: the order actually fed to the earliest-start loop is the
REVERSED DFS post-order of resource_optimizer.py line 165, in which every
dependency occurs strictly LATER than its dependents (see `topoOrderDFS`);
over any such duplicate-free order, every dependency's table entry is
still 0 when its dependent is processed, so the computation assigns to
every task with no dependencies the value 0, and to every other task
simply the maximum of its dependencies' RAW integer durations — neither
the recursive max-over-(earliest_start + duration) formula nor the mode's
duration multiplier of the claim. -/
theorem c8_earliest_start_characterization (dur : String → ℕ)
    (depsOf : String → List String) (order : List String)
    (hnd : order.Nodup)
    (hrev : ∀ i, i < order.length →
      ∀ d ∈ depsOf (order.getD i ""),
        ∃ j, j < order.length ∧ i < j ∧ order.getD j "" = d) :
    ∀ t ∈ order,
      earliestStart dur depsOf order t
        = (depsOf t).foldl (fun a d => max a (dur d)) 0 := by
  intro t ht
  obtain ⟨i, hi, hti⟩ := List.getElem_of_mem ht
  have hdrop : order.drop i = t :: order.drop (i + 1) := by
    rw [List.drop_eq_getElem_cons hi, hti]
  have hsplit : order = order.take i ++ t :: order.drop (i + 1) := by
    conv_lhs => rw [← List.take_append_drop i order]
    rw [hdrop]
  have hnd' : (order.take i ++ t :: order.drop (i + 1)).Nodup := hsplit ▸ hnd
  rw [List.nodup_append] at hnd'
  obtain ⟨hndpre, hndcons, hdisj⟩ := hnd'
  have htpre : t ∉ order.take i := fun h => hdisj h (List.mem_cons_self _ _)
  have htpost : t ∉ order.drop (i + 1) := (List.nodup_cons.mp hndcons).1
  have hgetd : order.getD i "" = t := by
    rw [List.getD_eq_getElem?_getD, List.getElem?_eq_getElem hi, hti]
    rfl
  have hdeps : ∀ d ∈ depsOf t, d ∈ order.drop (i + 1) := by
    intro d hd
    obtain ⟨j, hjlen, hij, hjd⟩ := hrev i hi d (by rwa [hgetd])
    rw [← hjd]
    exact getD_mem_drop (i + 1) j (by omega) hjlen
  have htdep : t ∉ depsOf t := fun h => htpost (hdeps t h)
  have hdpre : ∀ d ∈ depsOf t, d ∉ order.take i := by
    intro d hd hmem
    exact hdisj hmem (List.mem_cons_of_mem _ (hdeps d hd))
  have hfun : earliestStart dur depsOf order
      = esLoop dur depsOf (order.drop (i + 1))
          (esStep dur t (depsOf t)
            (esLoop dur depsOf (order.take i) (fun _ => 0))) := by
    unfold earliestStart
    conv_lhs => rw [hsplit]
    rw [esLoop_append]
    rfl
  have hbase : esLoop dur depsOf (order.take i) (fun _ => 0) t = 0 :=
    esLoop_notMem dur depsOf _ _ htpre
  have hvalt : earliestStart dur depsOf order t
      = (depsOf t).foldl
          (fun a d => max a (esLoop dur depsOf (order.take i) (fun _ => 0) d + dur d))
          0 := by
    rw [hfun, esLoop_notMem dur depsOf _ _ htpost, esStep_eq dur t _ _ htdep, hbase]
  rw [hvalt]
  apply foldl_congr_mem
  intro a d hd
  dsimp only
  have h0 : esLoop dur depsOf (order.take i) (fun _ => 0) d = 0 :=
    esLoop_notMem dur depsOf _ _ (hdpre d hd)
  rw [h0, Nat.zero_add]

/-- Durations for the depth-1 earliest-start divergence scenario. -/
def c8Dur : String → ℕ := fun n => if n = "A" then 5 else if n = "B" then 1 else 0

/-- Dependencies for the depth-1 scenario: B depends on A. -/
def c8Deps : String → List String := fun n => if n = "B" then ["A"] else []

/-- The order the code produces for the depth-1 scenario: the DFS
post-order [A, B] reversed at line 165. -/
def c8Order : List String := ["B", "A"]

/-- Durations for the depth-2 chain A(2) <- B(3) <- C(1). -/
def c8ChainDur : String → ℕ :=
  fun n => if n = "A" then 2 else if n = "B" then 3 else if n = "C" then 1 else 0

/-- Dependencies for the depth-2 chain: B after A, C after A and B. -/
def c8ChainDeps : String → List String :=
  fun n => if n = "B" then ["A"] else if n = "C" then ["A", "B"] else []

/-- The order the code produces for the chain: DFS post-order [A, B, C]
reversed at line 165. -/
def c8ChainOrder : List String := ["C", "B", "A"]

/-- C8 counterexample, on the orders the code's own DFS-and-reverse
construction produces.  Depth 1 (performance mode): the code computes
`earliest_start(B) = 5` from A's raw duration while the claim's formula
with the adjusted duration `max(1, floor(5 * 0.8)) = 4` yields 4.  Depth 2
(standard mode, where adjusted = raw, isolating the order bug): the code
computes `earliest_start(C) = 3` because B's entry is still 0 when C is
processed in the reversed order [C, B, A], while the claim's recursive
max formula evaluated at the code's own earliest-start values yields
`max(0 + 2, 2 + 3) = 5`. -/
theorem c8_counterexample :
    topoOrderDFS c8Deps ["A", "B"] 10 = Except.ok c8Order
    ∧ earliestStart c8Dur c8Deps c8Order "B" = 5
    ∧ (c8Deps "B").foldl
        (fun a d => max a (earliestStart c8Dur c8Deps c8Order d
          + adjDur Mode.performance (c8Dur d))) 0 = 4
    ∧ (5 : ℕ) ≠ 4
    ∧ topoOrderDFS c8ChainDeps ["A", "B", "C"] 10 = Except.ok c8ChainOrder
    ∧ earliestStart c8ChainDur c8ChainDeps c8ChainOrder "C" = 3
    ∧ (c8ChainDeps "C").foldl
        (fun a d => max a (earliestStart c8ChainDur c8ChainDeps c8ChainOrder d
          + adjDur Mode.standard (c8ChainDur d))) 0 = 5
    ∧ (3 : ℕ) ≠ 5 :=
  ⟨rfl, by decide, by decide, by decide, rfl, by decide, by decide, by decide⟩

/-- Witness for `c8_earliest_start_characterization` at the chain order
[C, B, A] that the code's construction produces:
`earliest_start(C) = max(dur A, dur B) = 3`. -/
theorem c8_earliest_start_witness :
    earliestStart c8ChainDur c8ChainDeps c8ChainOrder "C"
      = (c8ChainDeps "C").foldl (fun a d => max a (c8ChainDur d)) 0 :=
  c8_earliest_start_characterization c8ChainDur c8ChainDeps c8ChainOrder
    (by decide) (by decide) "C" (by decide)

/-- Durations of the single-task utilization scenario. -/
def c4Dur : String → ℕ := fun n => if n = "T" then 10 else 0

/-- Required resources of the single-task utilization scenario. -/
def c4Res : String → List String := fun n => if n = "T" then ["excavator"] else []

/-- Dependencies of the single-task utilization scenario (none). -/
def c4Deps : String → List String := fun _ => []

/-- Topological order of the single-task utilization scenario. -/
def c4Order : List String := ["T"]

/-- C4: with a single task of duration 10 using one excavator and eco mode,
`optimize_schedule` reports a resource utilization of 110 percent: the
timeline is sized by the raw duration (`max_end_time = 10`, 11 cells) but
occupied for the adjusted duration `int(10 * 1.1) = 11` days, and the
division uses `max_end_time` instead of the timeline length, so the
reported value escapes [0, 100]. -/
theorem c4_utilization_exceeds_100 :
    roUtilization c4Dur c4Res (earliestStart c4Dur c4Deps c4Order)
        Mode.eco c4Order "excavator" = 110
    ∧ ¬ (roUtilization c4Dur c4Res (earliestStart c4Dur c4Deps c4Order)
          Mode.eco c4Order "excavator" ≤ 100) := by decide

end SchedOpt
